import Mathlib

/-!
Verification of the ProsaKart spaced-repetition scheduling core.

This file gives a shallow embedding, in Lean 4, of the scheduling and
mastery-tracking engine of the ProsaKart vocabulary trainer:

* `update_entry` embeds `SQLHandler.update_entry` (sql_handle.py), the
  progression policy applied to one item's row on each answer;
* `refresh_one` / `refresh_entries` embed `SQLHandler.refresh_entries`,
  the decay sweep run at the start of each test session (SQLite's
  three-valued `WHERE` logic is collapsed to `Bool`, with comparisons
  against `NULL` evaluating to false exactly as in SQLite);
* `get_next_entry` embeds `SQLHandler.get_next_entry`, the item selector
  (the `ORDER BY ... RANDOM() LIMIT 1` query is modelled by taking the
  candidate rows in an arbitrary list order standing for the random
  shuffle and picking the first row minimal under the deterministic part
  of the sort key);
* `is_close` / `classify` embed `TestInterface.is_close` and the answer
  classification loop of `TestInterface.accept_answer` (interfaces.py),
  including a faithful implementation of the Ratcliff/Obershelp
  matching-block similarity used by `difflib.SequenceMatcher.ratio`;
* `accept_answer` embeds the control flow of `TestInterface.accept_answer`
  around the classification: the retry flag, the re-prompt on a fuzzy
  match, and the call to `update_entry`.

Timestamps are modelled as integers (an abstract count of days); the
SQLite calendar offsets `+1 day`, `+7 day`, `+1 month`, `+3 month` become
the fixed durations `one_day`, `seven_days`, `one_month`, `three_months`.
No statement proved below depends on the numeric values of those
durations, only on the comparison structure of the sweep.
-/

/-- One item's proficiency row: the four columns of the `entries` table
that `update_entry` reads and writes (`points`, `needed`, `so_far`,
`completed`).  `completed` is `none` for SQL `NULL`. -/
structure PState where
  points : Int
  needed : Int
  so_far : Int
  completed : Option Int
deriving DecidableEq

/-- The row every new entry starts from (`entries` table defaults:
`points 0`, `needed 2`, `so_far 0`, `completed NULL`). -/
def initial_state : PState := ⟨0, 2, 0, none⟩

/-- The `needed` column after a wrong answer:
`if needed < 10: needed += 1`. -/
def miss_needed (s : PState) : Int :=
  if s.needed < 10 then s.needed + 1 else s.needed

/-- The `(needed, so_far)` columns after a correct answer:
`if so_far < needed: so_far += 1; if so_far == 0: so_far = needed`,
`elif needed > 2: needed -= 1; so_far -= 1`, else unchanged. -/
def hit_counts (s : PState) : Int × Int :=
  if s.so_far < s.needed then
    (s.needed, if s.so_far + 1 = 0 then s.needed else s.so_far + 1)
  else if s.needed > 2 then
    (s.needed - 1, s.so_far - 1)
  else
    (s.needed, s.so_far)

/-- Embedding of `SQLHandler.update_entry` (sql_handle.py): the pure
state transition applied to the row of the answered entry.  `correct`
is the Python argument of the same name; `now` stands for the value of
`datetime('now')` at the moment of the call.  On a wrong answer:
`so_far := -needed`, `completed := NULL`; on a correct answer the
counters move by `hit_counts` and then
`if needed == so_far == 2 and not completed` the completion timestamp
is set to `now`. -/
def update_entry (s : PState) (correct : Bool) (now : Int) : PState :=
  if !correct then
    ⟨s.points, miss_needed s, -(miss_needed s), none⟩
  else
    ⟨s.points, (hit_counts s).1, (hit_counts s).2,
      if (hit_counts s).1 = 2 ∧ (hit_counts s).2 = 2 ∧ s.completed = none
      then some now else s.completed⟩

/-- SQLite modifier `+1 day`, in abstract days. -/
def one_day : Int := 1

/-- SQLite modifier `+7 day`, in abstract days. -/
def seven_days : Int := 7

/-- SQLite modifier `+1 month`, modelled as a fixed span of days. -/
def one_month : Int := 30

/-- SQLite modifier `+3 month`, modelled as a fixed span of days. -/
def three_months : Int := 90

/-- `datetime(completed, modifier)`: shifting `NULL` yields `NULL`. -/
def dt_add (o : Option Int) (d : Int) : Option Int :=
  match o with
  | none => none
  | some t => some (t + d)

/-- SQLite comparison `datetime('now') > x` inside `WHERE`: comparing
with `NULL` yields `NULL`, which the `WHERE` clause treats as false. -/
def sql_gt (now : Int) (o : Option Int) : Bool :=
  match o with
  | none => false
  | some t => now > t

/-- The `WHERE` clause of `SQLHandler.refresh_entries`, with SQL's
precedence (`AND` binds tighter than `OR`): the `completed IS NOT NULL`
guard attaches only to the first disjunct, but the later disjuncts
reject `NULL` rows anyway because their comparisons evaluate to
`NULL`/false. -/
def sweep_cond (now : Int) (s : PState) : Bool :=
  (s.completed.isSome && sql_gt now (dt_add s.completed one_day)
    && decide (s.points = 0))
  || (sql_gt now (dt_add s.completed seven_days) && decide (s.points = 1))
  || (sql_gt now (dt_add s.completed one_month) && decide (s.points = 2))
  || (sql_gt now (dt_add s.completed three_months) && decide (s.points = 3))

/-- The `SET` part of `SQLHandler.refresh_entries`, applied to one row
when its `WHERE` condition holds: `points := points + 1`,
`completed := NULL`, `so_far := 0`, `needed` untouched. -/
def refresh_one (now : Int) (s : PState) : PState :=
  if sweep_cond now s then ⟨s.points + 1, s.needed, 0, none⟩ else s

/-- The decay threshold keyed by `points`, as the spec states it:
1 day for 0 points, 7 days for 1, 1 month for 2, 3 months for 3, and
no threshold at all from 4 points on. -/
def threshold (p : Int) : Option Int :=
  if p = 0 then some one_day
  else if p = 1 then some seven_days
  else if p = 2 then some one_month
  else if p = 3 then some three_months
  else none

/-- A row of the `SELECT` in `get_next_entry`: the entry id, the
question text and the proficiency columns. -/
structure Entry where
  entry : Nat
  question : String
  st : PState
deriving DecidableEq

/-- `SQLHandler.refresh_entries` over the whole `entries` table: the
`UPDATE` touches every row whose condition holds and leaves the rest. -/
def refresh_entries (now : Int) (db : List Entry) : List Entry :=
  db.map (fun e => { e with st := refresh_one now e.st })

/-- The recency `CASE` of `get_next_entry`'s `ORDER BY`:
`WHEN entry = previous[0] THEN 1 WHEN entry = previous[1] THEN 2 ...
ELSE 0`, with `enumerate(previous, 1)` numbering the deque from its
oldest element.  The first matching arm wins. -/
def recent_rank_from (i : Nat) : List Nat → Nat → Nat
  | [], _ => 0
  | p :: rest, id => if id = p then i else recent_rank_from (i + 1) rest id

/-- Rank 0 for an entry not in `previous`; rank `k + 1` for the entry at
(first) position `k` of `previous`. -/
def recent_rank (previous : List Nat) (id : Nat) : Nat :=
  recent_rank_from 1 previous id

/-- The proficiency `CASE` of the `ORDER BY`:
`CASE WHEN so_far = 2 THEN 2 WHEN so_far = 0 THEN 1 ELSE 0 END`. -/
def bucket (so_far : Int) : Nat :=
  if so_far = 2 then 2 else if so_far = 0 then 1 else 0

/-- The deterministic part of the composite sort key of
`get_next_entry`: recency rank first, proficiency bucket second. -/
def entry_key (previous : List Nat) (e : Entry) : Nat × Nat :=
  (recent_rank previous e.entry, bucket e.st.so_far)

/-- Strict lexicographic order on sort keys (`Bool`-valued). -/
def key_lt (a b : Nat × Nat) : Bool :=
  a.1 < b.1 || (a.1 == b.1 && a.2 < b.2)

/-- Lexicographic order on sort keys, as a proposition. -/
def key_le (a b : Nat × Nat) : Prop :=
  a.1 < b.1 ∨ (a.1 = b.1 ∧ a.2 ≤ b.2)

/-- Embedding of `SQLHandler.get_next_entry`: `rows` is the join of
`entries` with `mentions` restricted to the requested sheet, listed in
the order produced by the trailing `ORDER BY RANDOM()`; the query then
returns the first row minimal under the deterministic key, and
`fetchone()` returns `none` when the sheet yields no rows.  `sel_step`
keeps, of the accumulator and the next row, the one sorting earlier
(the accumulator on a tie, preserving the random order's choice). -/
def sel_step (previous : List Nat) (acc : Option Entry) (e : Entry) :
    Option Entry :=
  match acc with
  | none => some e
  | some m =>
    if key_lt (entry_key previous e) (entry_key previous m) then some e
    else some m

def get_next_entry (rows : List Entry) (previous : List Nat) : Option Entry :=
  rows.foldl (sel_step previous) none

/-- The `INNER JOIN mentions ... WHERE sheet = ?` of `get_next_entry`:
the candidate rows of one sheet. -/
def sheet_rows (entries : List Entry) (mentions : List (Nat × Nat))
    (sheet : Nat) : List Entry :=
  entries.filter (fun e => mentions.any (fun m => m.1 == e.entry && m.2 == sheet))

/-- The per-item states reachable from a fresh entry by any interleaving
of answers (`update_entry` with either verdict) and decay sweeps
(`refresh_one`), at arbitrary times. -/
inductive Reachable : PState → Prop
  | init : Reachable initial_state
  | answer (s : PState) (correct : Bool) (now : Int) :
      Reachable s → Reachable (update_entry s correct now)
  | sweep (s : PState) (now : Int) :
      Reachable s → Reachable (refresh_one now s)

/-- A matching block of length `k` inside the bounds of both lists,
found at the earliest `i` and, for that `i`, the earliest `j` —
difflib's documented tie-break for `find_longest_match` (no element of
an 80-character vocabulary string is junk, and autojunk needs length
≥ 200, so the junk machinery is inert here). -/
def find_block (a b : List Char) (k : Nat) : Option (Nat × Nat) :=
  (List.range (a.length + 1)).findSome? fun i =>
    (List.range (b.length + 1)).findSome? fun j =>
      if i + k ≤ a.length ∧ j + k ≤ b.length ∧
          (a.drop i).take k = (b.drop j).take k
      then some (i, j) else none

/-- Searches block lengths downward from `K`, so the first hit is a
longest matching block. -/
def flm_aux (a b : List Char) : Nat → Nat × Nat × Nat
  | 0 => (0, 0, 0)
  | k + 1 =>
    match find_block a b (k + 1) with
    | some (i, j) => (i, j, k + 1)
    | none => flm_aux a b k

/-- `SequenceMatcher.find_longest_match` over whole lists: a longest
matching block, earliest in `a` then earliest in `b`, or length 0. -/
def find_longest_match (a b : List Char) : Nat × Nat × Nat :=
  flm_aux a b (min a.length b.length)

theorem findSome?_mem {α β : Type} {f : α → Option β} {l : List α} {b : β}
    (h : l.findSome? f = some b) : ∃ a ∈ l, f a = some b := by
  induction l with
  | nil => simp [List.findSome?] at h
  | cons x xs ih =>
    rw [List.findSome?_cons] at h
    cases hx : f x with
    | some v =>
      rw [hx] at h
      refine ⟨x, by simp, ?_⟩
      rw [hx]
      exact h
    | none =>
      rw [hx] at h
      obtain ⟨a, ha, hfa⟩ := ih h
      exact ⟨a, by simp [ha], hfa⟩

theorem find_block_bounds {a b : List Char} {k i j : Nat}
    (h : find_block a b k = some (i, j)) :
    i + k ≤ a.length ∧ j + k ≤ b.length := by
  obtain ⟨i', _, hi⟩ := findSome?_mem h
  obtain ⟨j', _, hj⟩ := findSome?_mem hi
  by_cases hc : i' + k ≤ a.length ∧ j' + k ≤ b.length ∧
      (a.drop i').take k = (b.drop j').take k
  · rw [if_pos hc] at hj
    cases hj
    exact ⟨hc.1, hc.2.1⟩
  · rw [if_neg hc] at hj
    cases hj

theorem flm_aux_bounds {a b : List Char} :
    ∀ {K i j k : Nat}, flm_aux a b K = (i, j, k) → k ≠ 0 →
      i + k ≤ a.length ∧ j + k ≤ b.length := by
  intro K
  induction K with
  | zero =>
    intro i j k h hk
    simp only [flm_aux] at h
    cases h
    exact absurd rfl hk
  | succ n ih =>
    intro i j k h hk
    rw [flm_aux] at h
    cases hfb : find_block a b (n + 1) with
    | some p =>
      rw [hfb] at h
      cases h
      exact find_block_bounds (by rw [hfb])
    | none =>
      rw [hfb] at h
      exact ih h hk

theorem find_longest_match_bounds {a b : List Char} {i j k : Nat}
    (h : find_longest_match a b = (i, j, k)) (hk : k ≠ 0) :
    i + k ≤ a.length ∧ j + k ≤ b.length :=
  flm_aux_bounds h hk

/-- Total size of the matching blocks of `SequenceMatcher`: the longest
block plus, recursively, the blocks strictly before and strictly after
it (`get_matching_blocks`; adjacent-block merging does not change the
total). -/
def matching_size (a b : List Char) : Nat :=
  match h : find_longest_match a b with
  | (_, _, 0) => 0
  | (i, j, k + 1) =>
    (k + 1) + matching_size (a.take i) (b.take j)
      + matching_size (a.drop (i + (k + 1))) (b.drop (j + (k + 1)))
termination_by a.length
decreasing_by
  · have hb := (find_longest_match_bounds h (by omega)).1
    simp only [List.length_take]
    omega
  · have hb := (find_longest_match_bounds h (by omega)).1
    simp only [List.length_drop]
    omega

/-- `SequenceMatcher(None, a, b).ratio() >= 0.9`, i.e.
`2 * M / (len(a) + len(b)) ≥ 9 / 10` as exact rational arithmetic.  For
the string lengths at hand (≤ 80 characters each) the double-precision
evaluation in `difflib` agrees with the rational comparison: the gap
between any representable ratio and 9/10 is at least `1 / (10 * 160)`,
far above the rounding error of one float division, and exact equality
rounds to the same double as the literal `0.9`.  (Python returns 1.0 on
two empty strings; `0 ≥ 0` agrees.) -/
def ratio_ge_point9 (a b : List Char) : Bool :=
  9 * (a.length + b.length) ≤ 20 * matching_size a b

/-- Embedding of `TestInterface.is_close` (interfaces.py):
`SequenceMatcher(None, str_1, str_2).ratio() >= 0.9`. -/
def is_close (str_1 str_2 : String) : Bool :=
  ratio_ge_point9 str_1.data str_2.data

/-- The three verdicts of the answer-classification loop of
`accept_answer` (`match` values 0, 1, 2 in the Python). -/
inductive MatchResult where
  | MISS
  | FUZZY
  | EXACT
deriving DecidableEq

/-- The loop of `TestInterface.accept_answer` over the accepted answers:
exact match sets `match = 2` and breaks; otherwise, when fuzzy matching
is allowed and no match was recorded yet, a close answer sets
`match = 1` and the loop continues. -/
def classify_loop (attempt : String) (allowFuzzy : Bool) :
    List String → Nat → Nat
  | [], m => m
  | ans :: rest, m =>
    if attempt = ans then 2
    else if allowFuzzy && m == 0 && is_close attempt ans then
      classify_loop attempt allowFuzzy rest 1
    else classify_loop attempt allowFuzzy rest m

/-- Python's `str.strip()` on the submitted text
(`self.e1.get().strip()`): leading and trailing whitespace removed.
(`String.trim` is avoided because its byte-position loops do not reduce
inside the kernel; this structural version has the same meaning.) -/
def py_strip (s : String) : String :=
  ⟨((s.data.dropWhile Char.isWhitespace).reverse.dropWhile
      Char.isWhitespace).reverse⟩

/-- The answer classifier of `accept_answer`: the submission is stripped
(`self.e1.get().strip()`), then scored by `classify_loop` starting from
`match = 0`; `allowFuzzy` stands for `not self.reattempt`.  Verdicts 2,
1, 0 are `EXACT`, `FUZZY`, `MISS`. -/
def classify (submitted : String) (answers : List String)
    (allowFuzzy : Bool) : MatchResult :=
  if classify_loop (py_strip submitted) allowFuzzy answers 0 = 2 then .EXACT
  else if classify_loop (py_strip submitted) allowFuzzy answers 0 = 1 then
    .FUZZY
  else .MISS

/-- The externally visible effect of one submission in
`TestInterface.accept_answer`: the verdict shown, the retry flag
afterwards, and the `update_entry` call if one is made (`some matched`,
with `matched = (match == 2)`). -/
structure SubmitResult where
  outcome : MatchResult
  reattempt : Bool
  advanceCall : Option Bool
deriving DecidableEq

/-- Embedding of the control flow of `TestInterface.accept_answer`: a
fuzzy verdict prompts "Check your spelling!", sets the retry flag and
returns without touching the entry; any other verdict clears the flag
and calls `update_entry(entry, match == 2)`. -/
def accept_answer (reattempt : Bool) (raw : String)
    (answers : List String) : SubmitResult :=
  if classify raw answers (!reattempt) = .FUZZY then
    ⟨.FUZZY, true, none⟩
  else
    ⟨classify raw answers (!reattempt), false,
      some (classify raw answers (!reattempt) == .EXACT)⟩

/-- Unfolding lemma for `matching_size` when no matching block exists. -/
theorem matching_size_zero {a b : List Char} {i j : Nat}
    (h : find_longest_match a b = (i, j, 0)) : matching_size a b = 0 := by
  rw [matching_size.eq_def]
  split
  · rfl
  · next i' j' k' h' =>
    rw [h] at h'
    cases h'

/-- Unfolding lemma for `matching_size` at a longest block of positive
length. -/
theorem matching_size_pos {a b : List Char} {i j k : Nat}
    (h : find_longest_match a b = (i, j, k + 1)) :
    matching_size a b = (k + 1) + matching_size (a.take i) (b.take j)
      + matching_size (a.drop (i + (k + 1))) (b.drop (j + (k + 1))) := by
  rw [matching_size.eq_def]
  split
  · next i' j' h' =>
    rw [h] at h'
    cases h'
  · next i' j' k' h' =>
    rw [h] at h'
    injection h' with h1 h2
    injection h2 with h2 h3
    injection h3 with h3
    subst h1; subst h2; subst h3
    rfl

theorem update_entry_false_eq (s : PState) (now : Int) :
    update_entry s false now =
      ⟨s.points, miss_needed s, -(miss_needed s), none⟩ := rfl

theorem update_entry_true_eq (s : PState) (now : Int) :
    update_entry s true now =
      ⟨s.points, (hit_counts s).1, (hit_counts s).2,
        if (hit_counts s).1 = 2 ∧ (hit_counts s).2 = 2 ∧ s.completed = none
        then some now else s.completed⟩ := rfl

/-- C4: for every proficiency row within the schema's `needed` ceiling,
a wrong answer sets `needed` to `min (needed + 1) 10`, sets `so_far` to
the negation of the updated `needed`, clears the completion timestamp
and leaves `points` unchanged. -/
theorem update_entry_miss_spec (s : PState) (now : Int)
    (h : s.needed ≤ 10) :
    update_entry s false now =
      ⟨s.points, min (s.needed + 1) 10, -(min (s.needed + 1) 10), none⟩ := by
  rw [update_entry_false_eq]
  have hm : miss_needed s = min (s.needed + 1) 10 := by
    rw [miss_needed]
    split_ifs with h1 <;> omega
  rw [hm]

/-- Witness for C4 at the spec's own miss example:
`advance({points:3, needed:4, so_far:3}, matched=false)
  == {points:3, needed:5, so_far:-5, completed_at:null}`. -/
theorem update_entry_miss_spec_witness :
    (4 : Int) ≤ 10 ∧
      update_entry ⟨3, 4, 3, none⟩ false 0 =
        ⟨3, min ((4 : Int) + 1) 10, -(min ((4 : Int) + 1) 10), none⟩ :=
  ⟨by norm_num, update_entry_miss_spec ⟨3, 4, 3, none⟩ 0 (by norm_num)⟩

/-- C5: for every proficiency row with `so_far < needed`, a correct
answer leaves `points` and `needed` unchanged and increments `so_far`,
snapping straight to `needed` when the increment lands on 0; if the
resulting counters are `needed = 2` and `so_far = 2` with no completion
timestamp yet, the timestamp is set to the current time. -/
theorem update_entry_hit_progress_spec (s : PState) (now : Int)
    (h : s.so_far < s.needed) :
    (update_entry s true now).points = s.points
    ∧ (update_entry s true now).needed = s.needed
    ∧ (update_entry s true now).so_far =
        (if s.so_far + 1 = 0 then s.needed else s.so_far + 1)
    ∧ ((update_entry s true now).needed = 2
        ∧ (update_entry s true now).so_far = 2
        ∧ s.completed = none →
        (update_entry s true now).completed = some now) := by
  rw [update_entry_true_eq]
  have hc : hit_counts s =
      (s.needed, if s.so_far + 1 = 0 then s.needed else s.so_far + 1) := by
    rw [hit_counts, if_pos h]
  rw [hc]
  refine ⟨rfl, rfl, rfl, ?_⟩
  intro hdone
  simp only at hdone ⊢
  obtain ⟨h1, h2, h3⟩ := hdone
  simp only [h1, h2, h3]
  by_cases hz : s.so_far + 1 = 0
  · simp [hz]
  · rw [if_neg hz] at h2
    simp [hz, h2]

/-- Witness for C5 at the spec's hit-crossing-zero example:
`advance({needed:4, so_far:-1}, matched=true) == {needed:4, so_far:4}`. -/
theorem update_entry_hit_progress_spec_witness :
    ((-1 : Int) < 4) ∧
      ((update_entry ⟨0, 4, -1, none⟩ true 9).points = 0
      ∧ (update_entry ⟨0, 4, -1, none⟩ true 9).needed = 4
      ∧ (update_entry ⟨0, 4, -1, none⟩ true 9).so_far =
          (if (-1 : Int) + 1 = 0 then (4 : Int) else (-1 : Int) + 1)
      ∧ ((update_entry ⟨0, 4, -1, none⟩ true 9).needed = 2
          ∧ (update_entry ⟨0, 4, -1, none⟩ true 9).so_far = 2
          ∧ (none : Option Int) = none →
          (update_entry ⟨0, 4, -1, none⟩ true 9).completed = some 9)) :=
  ⟨by norm_num, update_entry_hit_progress_spec ⟨0, 4, -1, none⟩ 9 (by norm_num)⟩

/-- C1 counterexample: at `needed = so_far = 2` (already mastered, with
a completion timestamp), a correct answer leaves `so_far` at 2, whereas
the claim demands `so_far - 1 = 1`: the code only demotes when
`needed > 2`. -/
theorem update_entry_demote_counterexample :
    (update_entry ⟨0, 2, 2, some 5⟩ true 7).so_far ≠
      (⟨0, 2, 2, some 5⟩ : PState).so_far - 1 := by decide

/-- C1 (amended): for every proficiency row with `so_far = needed`, a
correct answer demotes the tier only when `needed > 2` (then
`needed := needed - 1`, `so_far := so_far - 1`); at `needed = 2` both
counters are left unchanged.  `points` is unchanged; if the resulting
counters are `needed = 2, so_far = 2` and the completion timestamp is
unset it is set to the current time, and an already-set timestamp is
never refreshed. -/
theorem update_entry_hit_at_ceiling_spec (s : PState) (now : Int)
    (h : s.so_far = s.needed) :
    (update_entry s true now).points = s.points
    ∧ (2 < s.needed →
        (update_entry s true now).needed = s.needed - 1
        ∧ (update_entry s true now).so_far = s.so_far - 1)
    ∧ (s.needed = 2 →
        (update_entry s true now).needed = s.needed
        ∧ (update_entry s true now).so_far = s.so_far)
    ∧ ((update_entry s true now).needed = 2
        ∧ (update_entry s true now).so_far = 2
        ∧ s.completed = none →
        (update_entry s true now).completed = some now)
    ∧ (s.completed ≠ none →
        (update_entry s true now).completed = s.completed) := by
  rw [update_entry_true_eq]
  have hnot : ¬ s.so_far < s.needed := by omega
  refine ⟨rfl, ?_, ?_, ?_, ?_⟩
  · intro h2
    rw [hit_counts, if_neg hnot, if_pos h2]
    exact ⟨rfl, rfl⟩
  · intro h2
    rw [hit_counts, if_neg hnot, if_neg (by omega)]
    exact ⟨rfl, rfl⟩
  · intro hdone
    simp only at hdone
    rw [if_pos ⟨hdone.1, hdone.2.1, hdone.2.2⟩]
  · intro hset
    simp only
    rw [if_neg (fun hcond => hset hcond.2.2)]

/-- Witness for C1 (amended) at the spec's hit-at-ceiling example:
`advance({needed:3, so_far:3, completed_at:null}, matched=true)
  == {needed:2, so_far:2, completed_at:<now>}`. -/
theorem update_entry_hit_at_ceiling_spec_witness :
    ((3 : Int) = 3) ∧
      ((update_entry ⟨0, 3, 3, none⟩ true 11).points = 0
      ∧ (2 < (3 : Int) →
          (update_entry ⟨0, 3, 3, none⟩ true 11).needed = 3 - 1
          ∧ (update_entry ⟨0, 3, 3, none⟩ true 11).so_far = 3 - 1)
      ∧ ((3 : Int) = 2 →
          (update_entry ⟨0, 3, 3, none⟩ true 11).needed = 3
          ∧ (update_entry ⟨0, 3, 3, none⟩ true 11).so_far = 3)
      ∧ ((update_entry ⟨0, 3, 3, none⟩ true 11).needed = 2
          ∧ (update_entry ⟨0, 3, 3, none⟩ true 11).so_far = 2
          ∧ (none : Option Int) = none →
          (update_entry ⟨0, 3, 3, none⟩ true 11).completed = some 11)
      ∧ ((none : Option Int) ≠ none →
          (update_entry ⟨0, 3, 3, none⟩ true 11).completed = none)) :=
  ⟨rfl, update_entry_hit_at_ceiling_spec ⟨0, 3, 3, none⟩ 11 rfl⟩

/-- C3: every proficiency row reachable from a fresh entry by any
sequence of answers and decay sweeps keeps `needed` within [2, 10],
keeps `so_far` within [-needed, needed], and carries a completion
timestamp only while `needed = 2` and `so_far = 2`. -/
theorem reachable_state_inv (s : PState) (h : Reachable s) :
    (2 ≤ s.needed ∧ s.needed ≤ 10)
    ∧ (-s.needed ≤ s.so_far ∧ s.so_far ≤ s.needed)
    ∧ (s.completed ≠ none → s.needed = 2 ∧ s.so_far = 2) := by
  induction h with
  | init => simp [initial_state]
  | answer s correct now hs ih =>
    obtain ⟨⟨hn2, hn10⟩, ⟨hsl, hsu⟩, hcomp⟩ := ih
    cases correct with
    | false =>
      simp only [update_entry, Bool.not_false, if_pos, ite_true, miss_needed]
      split_ifs with h10 <;>
        refine ⟨⟨by omega, by omega⟩, ⟨by omega, by omega⟩,
          fun hc => absurd rfl hc⟩
    | true =>
      simp only [update_entry, Bool.not_true, Bool.false_eq_true, if_false,
        ite_false]
      by_cases hlt : s.so_far < s.needed
      · have hc : hit_counts s =
            (s.needed, if s.so_far + 1 = 0 then s.needed else s.so_far + 1) := by
          rw [hit_counts, if_pos hlt]
        rw [hc]
        by_cases hz : s.so_far + 1 = 0
        · simp only [hz, if_pos, ite_true]
          refine ⟨⟨hn2, hn10⟩, ⟨by omega, by omega⟩, ?_⟩
          split_ifs with hcond
          · intro _; exact ⟨hcond.1, hcond.2.1⟩
          · intro hne
            exact absurd (hcomp hne).2 (by omega)
        · simp only [hz, ite_false, if_neg]
          refine ⟨⟨hn2, hn10⟩, ⟨by omega, by omega⟩, ?_⟩
          split_ifs with hcond
          · intro _; exact ⟨hcond.1, hcond.2.1⟩
          · intro hne
            have := hcomp hne
            omega
      · have hge : ¬ s.so_far < s.needed := hlt
        by_cases h2 : s.needed > 2
        · have hc : hit_counts s = (s.needed - 1, s.so_far - 1) := by
            rw [hit_counts, if_neg hge, if_pos h2]
          rw [hc]
          refine ⟨⟨by omega, by omega⟩, ⟨by omega, by omega⟩, ?_⟩
          split_ifs with hcond
          · intro _; exact ⟨hcond.1, hcond.2.1⟩
          · intro hne
            have := hcomp hne
            omega
        · have hc : hit_counts s = (s.needed, s.so_far) := by
            rw [hit_counts, if_neg hge, if_neg h2]
          rw [hc]
          refine ⟨⟨hn2, hn10⟩, ⟨hsl, hsu⟩, ?_⟩
          split_ifs with hcond
          · intro _; exact ⟨hcond.1, hcond.2.1⟩
          · intro hne
            exact hcomp hne
  | sweep s now hs ih =>
    obtain ⟨⟨hn2, hn10⟩, ⟨hsl, hsu⟩, hcomp⟩ := ih
    rw [refresh_one]
    split_ifs with hcond
    · refine ⟨⟨hn2, hn10⟩, ⟨?_, ?_⟩, fun hc => absurd rfl hc⟩
      · show -s.needed ≤ (0 : Int)
        omega
      · show (0 : Int) ≤ s.needed
        omega
    · exact ⟨⟨hn2, hn10⟩, ⟨hsl, hsu⟩, hcomp⟩

/-- Witness for C3 at the reachable state produced by one wrong answer
on a fresh entry. -/
theorem reachable_state_inv_witness :
    (2 ≤ (update_entry initial_state false 3).needed
      ∧ (update_entry initial_state false 3).needed ≤ 10)
    ∧ (-(update_entry initial_state false 3).needed
        ≤ (update_entry initial_state false 3).so_far
      ∧ (update_entry initial_state false 3).so_far
        ≤ (update_entry initial_state false 3).needed)
    ∧ ((update_entry initial_state false 3).completed ≠ none →
        (update_entry initial_state false 3).needed = 2
        ∧ (update_entry initial_state false 3).so_far = 2) :=
  reachable_state_inv (update_entry initial_state false 3)
    (Reachable.answer initial_state false 3 Reachable.init)

theorem sweep_cond_none (now : Int) (s : PState) (hc : s.completed = none) :
    sweep_cond now s = false := by
  simp [sweep_cond, sql_gt, dt_add, hc]

theorem sweep_cond_some (now : Int) (s : PState) (c : Int)
    (hc : s.completed = some c) :
    sweep_cond now s = true ↔
      ((now > c + one_day ∧ s.points = 0)
        ∨ (now > c + seven_days ∧ s.points = 1)
        ∨ (now > c + one_month ∧ s.points = 2)
        ∨ (now > c + three_months ∧ s.points = 3)) := by
  simp only [sweep_cond, sql_gt, dt_add, hc, Option.isSome_some,
    Bool.true_and, Bool.or_eq_true, Bool.and_eq_true, decide_eq_true_eq]
  tauto

/-- The sweep's `WHERE` clause selects exactly the rows with a set
completion timestamp whose `points` value has a decay threshold that the
elapsed time has passed. -/
theorem sweep_cond_iff_threshold (now : Int) (s : PState) :
    sweep_cond now s = true ↔
      ∃ c t, s.completed = some c ∧ threshold s.points = some t
        ∧ now > c + t := by
  cases hc : s.completed with
  | none => simp [sweep_cond_none now s hc, hc]
  | some c =>
    rw [sweep_cond_some now s c hc]
    constructor
    · rintro (⟨hgt, hp⟩ | ⟨hgt, hp⟩ | ⟨hgt, hp⟩ | ⟨hgt, hp⟩) <;>
        exact ⟨c, _, rfl, by rw [threshold]; simp [hp], hgt⟩
    · rintro ⟨c', t, hc', ht, hgt⟩
      injection hc' with hc'
      subst hc'
      rw [threshold] at ht
      split_ifs at ht with h0 h1 h2 h3
      · injection ht with ht; subst ht; exact Or.inl ⟨hgt, h0⟩
      · injection ht with ht; subst ht; exact Or.inr (Or.inl ⟨hgt, h1⟩)
      · injection ht with ht; subst ht
        exact Or.inr (Or.inr (Or.inl ⟨hgt, h2⟩))
      · injection ht with ht; subst ht
        exact Or.inr (Or.inr (Or.inr ⟨hgt, h3⟩))

/-- C6: the decay sweep promotes exactly the rows with a set completion
timestamp and `points < 4` whose elapsed time has passed the threshold
keyed by `points` (1 day at 0, 7 days at 1, 1 month at 2, 3 months
at 3): such a row gets `points + 1`, `so_far = 0`, the timestamp
cleared and `needed` untouched; a row below its threshold, a row with
no threshold (`points ≥ 4`), and a row with no timestamp are left
entirely unchanged. -/
theorem refresh_one_policy (now : Int) (s : PState) :
    (∀ c t, s.completed = some c → threshold s.points = some t →
      (now > c + t →
        refresh_one now s = ⟨s.points + 1, s.needed, 0, none⟩)
      ∧ (¬ now > c + t → refresh_one now s = s))
    ∧ (threshold s.points = none → refresh_one now s = s)
    ∧ (s.completed = none → refresh_one now s = s) := by
  refine ⟨?_, ?_, ?_⟩
  · intro c t hc ht
    constructor
    · intro hgt
      rw [refresh_one, if_pos]
      rw [sweep_cond_iff_threshold]
      exact ⟨c, t, hc, ht, hgt⟩
    · intro hngt
      rw [refresh_one, if_neg]
      intro habs
      rw [sweep_cond_iff_threshold] at habs
      obtain ⟨c', t', hc', ht', hgt'⟩ := habs
      rw [hc] at hc'
      injection hc' with hc'
      rw [ht] at ht'
      injection ht' with ht'
      subst hc'
      subst ht'
      exact hngt hgt'
  · intro ht
    rw [refresh_one, if_neg]
    intro habs
    rw [sweep_cond_iff_threshold] at habs
    obtain ⟨c', t', _, ht', _⟩ := habs
    rw [ht] at ht'
    cases ht'
  · intro hc
    rw [refresh_one, if_neg]
    rw [sweep_cond_none now s hc]
    simp

/-- Witness for C6 at the spec's decay examples: a row with `points = 1`
completed 8 days ago is promoted; completed 3 days ago it is unchanged. -/
theorem refresh_one_policy_witness :
    refresh_one 8 ⟨1, 2, 2, some 0⟩ = ⟨1 + 1, 2, 0, none⟩
    ∧ refresh_one 3 ⟨1, 2, 2, some 0⟩ = ⟨1, 2, 2, some 0⟩ :=
  ⟨((refresh_one_policy 8 ⟨1, 2, 2, some 0⟩).1 0 seven_days rfl rfl).1
      (by norm_num [seven_days]),
    ((refresh_one_policy 3 ⟨1, 2, 2, some 0⟩).1 0 seven_days rfl rfl).2
      (by norm_num [seven_days])⟩

theorem refresh_entries_cons (now : Int) (e : Entry) (rest : List Entry) :
    refresh_entries now (e :: rest) =
      { e with st := refresh_one now e.st } :: refresh_entries now rest := rfl

/-- A promoted row has its timestamp cleared, so it can never satisfy
the sweep condition again at the same instant. -/
theorem refresh_one_idem (now : Int) (s : PState) :
    refresh_one now (refresh_one now s) = refresh_one now s := by
  by_cases h : sweep_cond now s = true
  · have h1 : refresh_one now s = ⟨s.points + 1, s.needed, 0, none⟩ := by
      rw [refresh_one, if_pos h]
    rw [h1, refresh_one,
      sweep_cond_none now ⟨s.points + 1, s.needed, 0, none⟩ rfl]
    simp
  · have h1 : refresh_one now s = s := by rw [refresh_one, if_neg h]
    rw [h1]
    exact h1

/-- C10: at a fixed current time, running the decay sweep twice over the
whole table gives the same table as running it once. -/
theorem refresh_entries_idempotent (now : Int) (db : List Entry) :
    refresh_entries now (refresh_entries now db) = refresh_entries now db := by
  induction db with
  | nil => rfl
  | cons e rest ih =>
    rw [refresh_entries_cons, refresh_entries_cons, ih]
    simp [refresh_one_idem]

theorem key_le_refl (a : Nat × Nat) : key_le a a := Or.inr ⟨rfl, le_refl _⟩

theorem key_le_trans {a b c : Nat × Nat} (h1 : key_le a b) (h2 : key_le b c) :
    key_le a c := by
  simp only [key_le] at h1 h2 ⊢
  omega

theorem key_lt_true {a b : Nat × Nat} (h : key_lt a b = true) : key_le a b := by
  simp only [key_lt, Bool.or_eq_true, Bool.and_eq_true, decide_eq_true_eq,
    beq_iff_eq] at h
  simp only [key_le]
  omega

theorem key_lt_false {a b : Nat × Nat} (h : key_lt a b = false) :
    key_le b a := by
  simp only [key_lt, Bool.or_eq_false_iff, Bool.and_eq_false_iff,
    decide_eq_false_iff_not, beq_eq_false_iff_ne] at h
  simp only [key_le]
  rcases h with ⟨h1, h2 | h2⟩ <;> omega

/-- The selection fold returns a row drawn from the accumulator or the
row list, minimal under the deterministic sort key among both. -/
theorem sel_fold_spec (previous : List Nat) :
    ∀ (rows : List Entry) (acc : Option Entry) (r : Entry),
      rows.foldl (sel_step previous) acc = some r →
      (acc = some r ∨ r ∈ rows)
      ∧ (∀ m, acc = some m →
          key_le (entry_key previous r) (entry_key previous m))
      ∧ ∀ e ∈ rows, key_le (entry_key previous r) (entry_key previous e) := by
  intro rows
  induction rows with
  | nil =>
    intro acc r h
    simp only [List.foldl_nil] at h
    refine ⟨Or.inl h, ?_, ?_⟩
    · intro m hm
      rw [h] at hm
      injection hm with hm
      subst hm
      exact key_le_refl _
    · intro e he
      exact absurd he (List.not_mem_nil e)
  | cons e rest ih =>
    intro acc r h
    simp only [List.foldl_cons] at h
    obtain ⟨hmem, hacc, hall⟩ := ih (sel_step previous acc e) r h
    refine ⟨?_, ?_, ?_⟩
    · rcases hmem with hstep | hr
      · cases acc with
        | none =>
          simp only [sel_step] at hstep
          injection hstep with hstep
          subst hstep
          exact Or.inr (List.mem_cons_self e rest)
        | some m =>
          simp only [sel_step] at hstep
          split_ifs at hstep with hlt
          · injection hstep with hstep
            subst hstep
            exact Or.inr (List.mem_cons_self e rest)
          · injection hstep with hstep
            subst hstep
            exact Or.inl rfl
      · exact Or.inr (List.mem_cons_of_mem e hr)
    · intro m hm
      subst hm
      by_cases hlt : key_lt (entry_key previous e) (entry_key previous m) = true
      · have hr := hacc e (by simp only [sel_step, hlt, if_pos])
        exact key_le_trans hr (key_lt_true hlt)
      · exact hacc m (by simp only [sel_step]; rw [if_neg hlt])
    · intro x hx
      rcases List.mem_cons.mp hx with hxe | hxrest
      · subst hxe
        cases acc with
        | none => exact hacc x (by simp only [sel_step])
        | some m =>
          by_cases hlt :
              key_lt (entry_key previous x) (entry_key previous m) = true
          · exact hacc x (by simp only [sel_step]; rw [if_pos hlt])
          · have hr := hacc m (by simp only [sel_step]; rw [if_neg hlt])
            exact key_le_trans hr (key_lt_false (by simpa using hlt))
      · exact hall x hxrest

theorem recent_rank_from_eq_zero {id : Nat} :
    ∀ (l : List Nat) (i : Nat), 1 ≤ i →
      (recent_rank_from i l id = 0 ↔ id ∉ l) := by
  intro l
  induction l with
  | nil => intro i _; simp [recent_rank_from]
  | cons p rest ih =>
    intro i hi
    by_cases hp : id = p
    · simp only [recent_rank_from, if_pos hp]
      constructor
      · intro h0; omega
      · intro habs
        exact absurd (by rw [hp]; exact List.mem_cons_self p rest) habs
    · simp only [recent_rank_from, if_neg hp]
      rw [ih (i + 1) (by omega)]
      simp [hp]

/-- An entry id is outside the recent deque exactly when its recency
rank is 0. -/
theorem recent_rank_eq_zero_iff (previous : List Nat) (id : Nat) :
    recent_rank previous id = 0 ↔ id ∉ previous :=
  recent_rank_from_eq_zero previous 1 (le_refl 1)

theorem recent_rank_from_get {l : List Nat} (hnd : l.Nodup) :
    ∀ (i k : Nat) (hk : k < l.length),
      recent_rank_from i l (l.get ⟨k, hk⟩) = i + k := by
  induction l with
  | nil => intro i k hk; cases hk
  | cons p rest ih =>
    intro i k hk
    cases k with
    | zero => simp [recent_rank_from]
    | succ k =>
      have hmem : rest.get ⟨k, by simpa using hk⟩ ∈ rest := List.get_mem _ _ _
      have hne : rest.get ⟨k, by simpa using hk⟩ ≠ p := by
        intro habs
        rw [habs] at hmem
        exact (List.nodup_cons.mp hnd).1 hmem
      show recent_rank_from i (p :: rest) (rest.get ⟨k, by simpa using hk⟩)
        = i + (k + 1)
      rw [recent_rank_from, if_neg hne,
        ih (List.nodup_cons.mp hnd).2 (i + 1) k (by simpa using hk)]
      omega

/-- For a duplicate-free deque, the entry at position `k` has recency
rank `k + 1`. -/
theorem recent_rank_get {previous : List Nat} (hnd : previous.Nodup)
    (k : Nat) (hk : k < previous.length) :
    recent_rank previous (previous.get ⟨k, hk⟩) = k + 1 := by
  rw [recent_rank, recent_rank_from_get hnd 1 k hk]
  omega

theorem sel_fold_isSome (previous : List Nat) :
    ∀ (rows : List Entry) (m : Entry),
      ∃ r, rows.foldl (sel_step previous) (some m) = some r := by
  intro rows
  induction rows with
  | nil => intro m; exact ⟨m, rfl⟩
  | cons e rest ih =>
    intro m
    simp only [List.foldl_cons, sel_step]
    split_ifs with h
    · exact ih e
    · exact ih m

/-- C2 counterexample: on a sheet with zero items the selector does not
raise anything — no `EmptySheetError` class exists in the code — it
returns SQLite's no-row marker (`fetchone()` gives `None`), a perfectly
ordinary return value. -/
theorem get_next_entry_empty_counterexample :
    get_next_entry (sheet_rows [] [] 1) [] = none := rfl

/-- C2 (amended): for every sheet containing zero items, `get_next_entry`
returns `None` (no row) instead of an entry; the failure surfaces only
when the caller unpacks the missing tuple, not as an `EmptySheetError`. -/
theorem get_next_entry_empty_sheet (entries : List Entry)
    (mentions : List (Nat × Nat)) (sheet : Nat) (previous : List Nat)
    (h : sheet_rows entries mentions sheet = []) :
    get_next_entry (sheet_rows entries mentions sheet) previous = none := by
  rw [h]
  rfl

/-- Witness for C2 (amended): one entry exists but no mention links it
to sheet 5, so the sheet is empty and the selector yields no row. -/
theorem get_next_entry_empty_sheet_witness :
    get_next_entry (sheet_rows [⟨7, "tere", initial_state⟩] [] 5) [7] = none :=
  get_next_entry_empty_sheet [⟨7, "tere", initial_state⟩] [] 5 [7] rfl

/-- C7: on a non-empty sheet the selector returns a row of the sheet
that is minimal under the composite key (recency rank, then proficiency
bucket); consequently it never returns a recently-seen row while a
non-recent row exists.  The key orders as the spec says: rows outside
the recent deque sort strictly before all rows in it; within a
duplicate-free deque, more recently seen means strictly larger rank
(later); rows with `so_far = 2` occupy the last bucket and rows with
`so_far = 0` a later bucket than every other `so_far`. -/
theorem get_next_entry_policy (rows : List Entry) (previous : List Nat)
    (hne : rows ≠ []) :
    ∃ r, get_next_entry rows previous = some r
      ∧ r ∈ rows
      ∧ (∀ e ∈ rows, key_le (entry_key previous r) (entry_key previous e))
      ∧ ((∃ e ∈ rows, e.entry ∉ previous) → r.entry ∉ previous)
      ∧ (∀ a b : Nat, a ∉ previous → b ∈ previous →
          recent_rank previous a < recent_rank previous b)
      ∧ (∀ (i j : Nat) (hi : i < previous.length) (hj : j < previous.length),
          previous.Nodup → i < j →
          recent_rank previous (previous.get ⟨i, hi⟩)
            < recent_rank previous (previous.get ⟨j, hj⟩))
      ∧ (∀ x : Int, x ≠ 2 → bucket x < bucket 2)
      ∧ (∀ x : Int, x ≠ 2 → x ≠ 0 → bucket x < bucket 0) := by
  obtain ⟨e, rest, rfl⟩ := List.exists_cons_of_ne_nil hne
  obtain ⟨r, hr⟩ := sel_fold_isSome previous rest e
  have hfold : get_next_entry (e :: rest) previous = some r := by
    rw [get_next_entry, List.foldl_cons]
    exact hr
  obtain ⟨hmem, _, hall⟩ := sel_fold_spec previous (e :: rest) none r hfold
  have hmem' : r ∈ e :: rest := by
    rcases hmem with habs | hm
    · cases habs
    · exact hm
  refine ⟨r, hfold, hmem', hall, ?_, ?_, ?_, ?_, ?_⟩
  · rintro ⟨x, hx, hxout⟩ hrin
    have hle := hall x hx
    have hrx : recent_rank previous x.entry = 0 :=
      (recent_rank_eq_zero_iff previous x.entry).mpr hxout
    have hrr : recent_rank previous r.entry ≠ 0 := by
      intro h0
      exact ((recent_rank_eq_zero_iff previous r.entry).mp h0) hrin
    rcases hle with hlt | ⟨heq, _⟩
    · simp only [entry_key] at hlt
      omega
    · simp only [entry_key] at heq
      omega
  · intro a b ha hb
    have h0 : recent_rank previous a = 0 :=
      (recent_rank_eq_zero_iff previous a).mpr ha
    have hpos : recent_rank previous b ≠ 0 := by
      intro habs
      exact absurd hb ((recent_rank_eq_zero_iff previous b).mp habs)
    omega
  · intro i j hi hj hnd hij
    rw [recent_rank_get hnd i hi, recent_rank_get hnd j hj]
    omega
  · intro x hx
    rw [bucket, if_neg hx, bucket, if_pos rfl]
    split_ifs <;> omega
  · intro x hx hx0
    rw [bucket, if_neg hx, if_neg hx0, bucket]
    rw [if_neg (by norm_num), if_pos rfl]
    omega

/-- Witness for C7: a two-row sheet where entry 2 was just seen (it is
in the recent deque) and entry 1 was not — the policy facts hold at this
instance; in particular the selector must avoid entry 2. -/
theorem get_next_entry_policy_witness :
    ∃ r, get_next_entry
          [⟨1, "tere", ⟨0, 2, 0, none⟩⟩, ⟨2, "maja", ⟨0, 2, 2, none⟩⟩]
          [2] = some r
      ∧ r ∈ [⟨1, "tere", ⟨0, 2, 0, none⟩⟩, ⟨2, "maja", ⟨0, 2, 2, none⟩⟩]
      ∧ (∀ e ∈ [(⟨1, "tere", ⟨0, 2, 0, none⟩⟩ : Entry),
            ⟨2, "maja", ⟨0, 2, 2, none⟩⟩],
          key_le (entry_key [2] r) (entry_key [2] e))
      ∧ ((∃ e ∈ [(⟨1, "tere", ⟨0, 2, 0, none⟩⟩ : Entry),
            ⟨2, "maja", ⟨0, 2, 2, none⟩⟩], e.entry ∉ [2]) →
          r.entry ∉ [2])
      ∧ (∀ a b : Nat, a ∉ [2] → b ∈ [2] →
          recent_rank [2] a < recent_rank [2] b)
      ∧ (∀ (i j : Nat) (hi : i < List.length [2]) (hj : j < List.length [2]),
          List.Nodup [2] → i < j →
          recent_rank [2] (List.get [2] ⟨i, hi⟩)
            < recent_rank [2] (List.get [2] ⟨j, hj⟩))
      ∧ (∀ x : Int, x ≠ 2 → bucket x < bucket 2)
      ∧ (∀ x : Int, x ≠ 2 → x ≠ 0 → bucket x < bucket 0) :=
  get_next_entry_policy
    [⟨1, "tere", ⟨0, 2, 0, none⟩⟩, ⟨2, "maja", ⟨0, 2, 2, none⟩⟩] [2]
    (by simp)

theorem classify_loop_nil (attempt : String) (allowFuzzy : Bool) (m : Nat) :
    classify_loop attempt allowFuzzy [] m = m := rfl

theorem classify_loop_cons (attempt ans : String) (rest : List String)
    (allowFuzzy : Bool) (m : Nat) :
    classify_loop attempt allowFuzzy (ans :: rest) m =
      if attempt = ans then 2
      else if allowFuzzy && m == 0 && is_close attempt ans then
        classify_loop attempt allowFuzzy rest 1
      else classify_loop attempt allowFuzzy rest m := rfl

/-- Value of the classification loop: from `match = 0` it yields 2 when
some answer matches exactly, else 1 when fuzzy matching is on and some
answer is close, else 0; from `match = 1` (a fuzzy match already
recorded) only an exact match can change the verdict. -/
theorem classify_loop_chars (attempt : String) (allowFuzzy : Bool) :
    ∀ answers : List String,
      (classify_loop attempt allowFuzzy answers 0 =
        if attempt ∈ answers then 2
        else if allowFuzzy = true ∧ ∃ a ∈ answers, is_close attempt a = true
        then 1
        else 0)
      ∧ (classify_loop attempt allowFuzzy answers 1 =
        if attempt ∈ answers then 2 else 1) := by
  intro answers
  induction answers with
  | nil => simp [classify_loop]
  | cons a rest ih =>
    obtain ⟨ih0, ih1⟩ := ih
    constructor
    · by_cases heq : attempt = a
      · simp [classify_loop, heq]
      · by_cases hf : (allowFuzzy && is_close attempt a) = true
        · rw [Bool.and_eq_true] at hf
          obtain ⟨hfz, hcl⟩ := hf
          subst hfz
          simp only [classify_loop, if_neg heq, hcl, Bool.and_true,
            Bool.true_and, beq_self_eq_true, ite_true]
          rw [ih1]
          by_cases hmem : attempt ∈ rest
          · simp [hmem, heq]
          · simp [hmem, heq, hcl]
        · have hcase : (allowFuzzy && ((0 : Nat) == 0) && is_close attempt a)
              = false := by
            simp only [beq_self_eq_true, Bool.and_true]
            simpa using hf
          simp only [classify_loop, if_neg heq, hcase, Bool.false_eq_true,
            if_false, ite_false]
          rw [ih0]
          simp only [Bool.and_eq_true, not_and_or, Bool.not_eq_true] at hf
          by_cases hmem : attempt ∈ rest
          · simp [hmem, heq]
          · rcases hf with hf | hf
            · simp [hmem, heq, hf]
            · by_cases hfz : allowFuzzy = true
              · simp [hmem, heq, hf, hfz]
              · simp [hmem, heq, hfz]
    · by_cases heq : attempt = a
      · simp [classify_loop, heq]
      · simp only [classify_loop, if_neg heq]
        have hone : (allowFuzzy && ((1 : Nat) == 0) && is_close attempt a)
            = false := by simp
        rw [hone]
        simp only [Bool.false_eq_true, if_false, ite_false]
        rw [ih1]
        simp [heq]

/-- Characterization of `classify`, read off the loop of
`accept_answer`: `EXACT` iff the stripped submission equals some
accepted answer; `FUZZY` iff fuzzy matching is allowed, no exact match
exists and some answer is `is_close`; `MISS` otherwise. -/
theorem classify_spec (submitted : String) (answers : List String)
    (allowFuzzy : Bool) :
    (classify submitted answers allowFuzzy = .EXACT ↔
      py_strip submitted ∈ answers)
    ∧ (classify submitted answers allowFuzzy = .FUZZY ↔
      (allowFuzzy = true ∧ py_strip submitted ∉ answers
        ∧ ∃ a ∈ answers, is_close (py_strip submitted) a = true))
    ∧ (classify submitted answers allowFuzzy = .MISS ↔
      (py_strip submitted ∉ answers
        ∧ ¬(allowFuzzy = true
            ∧ ∃ a ∈ answers, is_close (py_strip submitted) a = true))) := by
  have h0 := (classify_loop_chars (py_strip submitted) allowFuzzy answers).1
  by_cases hmem : py_strip submitted ∈ answers
  · rw [if_pos hmem] at h0
    simp only [classify, h0]
    refine ⟨?_, ?_, ?_⟩ <;> simp [hmem]
  · rw [if_neg hmem] at h0
    by_cases hfc : allowFuzzy = true
        ∧ ∃ a ∈ answers, is_close (py_strip submitted) a = true
    · rw [if_pos hfc] at h0
      simp only [classify, h0]
      refine ⟨?_, ?_, ?_⟩
      · simp [hmem]
      · simp [hmem, hfc.1, hfc.2]
      · simp [hmem, hfc]
    · rw [if_neg hfc] at h0
      simp only [classify, h0]
      refine ⟨?_, ?_, ?_⟩
      · simp [hmem]
      · constructor
        · intro habs
          cases habs
        · intro ⟨ha, _, he⟩
          exact absurd ⟨ha, he⟩ hfc
      · simp [hmem, hfc]

theorem matching_size_kargda_kargad :
    matching_size "kargda".data "kargad".data = 5 := by
  rw [matching_size_pos (show _ = (0, 0, 4) by decide)]
  norm_num
  rw [matching_size_zero (show _ = (0, 0, 0) by decide)]
  rw [matching_size_pos (show _ = (0, 1, 1) by decide)]
  rw [matching_size_zero (show _ = (0, 0, 0) by decide)]
  rw [matching_size_zero (show _ = (0, 0, 0) by decide)]

theorem matching_size_karga_kargad :
    matching_size "karga".data "kargad".data = 5 := by
  rw [matching_size_pos (show _ = (0, 0, 5) by decide)]
  norm_num
  rw [matching_size_zero (show _ = (0, 0, 0) by decide)]
  rw [matching_size_zero (show _ = (0, 0, 0) by decide)]

theorem matching_size_xyz_kargad :
    matching_size "xyz".data "kargad".data = 0 :=
  matching_size_zero
    (show find_longest_match "xyz".data "kargad".data = (0, 0, 0) by decide)

/-- `SequenceMatcher(None, "kargda", "kargad").ratio()` is `2·5/12 =
0.8333... < 0.9`: a transposition of the last two letters is not close
enough for the fuzzy prompt. -/
theorem is_close_kargda_kargad : is_close "kargda" "kargad" = false := by
  unfold is_close ratio_ge_point9
  apply decide_eq_false
  rw [matching_size_kargda_kargad]
  decide

/-- `SequenceMatcher(None, "karga", "kargad").ratio()` is `2·5/11 =
0.909... ≥ 0.9`: one dropped letter is close. -/
theorem is_close_karga_kargad : is_close "karga" "kargad" = true := by
  unfold is_close ratio_ge_point9
  apply decide_eq_true
  rw [matching_size_karga_kargad]
  decide

theorem is_close_xyz_kargad : is_close "xyz" "kargad" = false := by
  unfold is_close ratio_ge_point9
  apply decide_eq_false
  rw [matching_size_xyz_kargad]
  decide

theorem classify_kargad_exact : classify "kargad" ["kargad"] true = .EXACT := by
  decide

theorem classify_kargda_miss : classify "kargda" ["kargad"] true = .MISS := by
  have h1 : py_strip "kargda" = "kargda" := rfl
  have hc : (true && ((0 : Nat) == 0) && is_close "kargda" "kargad")
      = false := by
    rw [is_close_kargda_kargad]
    decide
  have hloop : classify_loop "kargda" true ["kargad"] 0 = 0 := by
    rw [classify_loop_cons, if_neg (by decide), hc]
    simp [classify_loop_nil]
  simp only [classify, h1, hloop]
  decide

theorem classify_xyz_miss : classify "xyz" ["kargad"] true = .MISS := by
  have h1 : py_strip "xyz" = "xyz" := rfl
  have hc : (true && ((0 : Nat) == 0) && is_close "xyz" "kargad")
      = false := by
    rw [is_close_xyz_kargad]
    decide
  have hloop : classify_loop "xyz" true ["kargad"] 0 = 0 := by
    rw [classify_loop_cons, if_neg (by decide), hc]
    simp [classify_loop_nil]
  simp only [classify, h1, hloop]
  decide

theorem classify_karga_fuzzy : classify "karga" ["kargad"] true = .FUZZY := by
  have h1 : py_strip "karga" = "karga" := rfl
  have hc : (true && ((0 : Nat) == 0) && is_close "karga" "kargad")
      = true := by
    rw [is_close_karga_kargad]
    decide
  have hloop : classify_loop "karga" true ["kargad"] 0 = 1 := by
    rw [classify_loop_cons, if_neg (by decide), hc]
    simp [classify_loop_nil]
  simp only [classify, h1, hloop]
  decide

/-- C8 counterexample: `classify("kargda", {"kargad"}, true)` is `MISS`,
not `FUZZY` as claimed — the Ratcliff/Obershelp ratio of the transposed
pair is `10/12 < 0.9`. -/
theorem classify_fuzzy_counterexample :
    classify "kargda" ["kargad"] true ≠ .FUZZY := by
  rw [classify_kargda_miss]
  decide

/-- C8 (amended): `classify` returns `EXACT` iff the stripped submission
equals some accepted answer; `FUZZY` only when fuzzy matching is
allowed, the result is not `EXACT` and the Ratcliff/Obershelp ratio
against some answer is at least 0.9; otherwise `MISS`.  In particular
`classify("kargad", {"kargad"}, true) = EXACT`,
`classify("kargda", {"kargad"}, true) = MISS` (its ratio is `5/6 <
0.9`), and `classify("xyz", {"kargad"}, true) = MISS`. -/
theorem classify_policy (submitted : String) (answers : List String)
    (allowFuzzy : Bool) :
    (classify submitted answers allowFuzzy = .EXACT ↔
      py_strip submitted ∈ answers)
    ∧ (classify submitted answers allowFuzzy = .FUZZY ↔
      (allowFuzzy = true ∧ py_strip submitted ∉ answers
        ∧ ∃ a ∈ answers, is_close (py_strip submitted) a = true))
    ∧ (classify submitted answers allowFuzzy = .MISS ↔
      (py_strip submitted ∉ answers
        ∧ ¬(allowFuzzy = true
            ∧ ∃ a ∈ answers, is_close (py_strip submitted) a = true)))
    ∧ classify "kargad" ["kargad"] true = .EXACT
    ∧ classify "kargda" ["kargad"] true = .MISS
    ∧ classify "xyz" ["kargad"] true = .MISS :=
  ⟨(classify_spec submitted answers allowFuzzy).1,
    (classify_spec submitted answers allowFuzzy).2.1,
    (classify_spec submitted answers allowFuzzy).2.2,
    classify_kargad_exact, classify_kargda_miss, classify_xyz_miss⟩

/-- Witness for C8 (amended) at the spec's exact example. -/
theorem classify_policy_witness :
    (classify "kargad" ["kargad"] true = MatchResult.EXACT ↔
      py_strip "kargad" ∈ ["kargad"])
    ∧ (classify "kargad" ["kargad"] true = MatchResult.FUZZY ↔
      (true = true ∧ py_strip "kargad" ∉ ["kargad"]
        ∧ ∃ a ∈ ["kargad"], is_close (py_strip "kargad") a = true))
    ∧ (classify "kargad" ["kargad"] true = MatchResult.MISS ↔
      (py_strip "kargad" ∉ ["kargad"]
        ∧ ¬(true = true
            ∧ ∃ a ∈ ["kargad"], is_close (py_strip "kargad") a = true)))
    ∧ classify "kargad" ["kargad"] true = MatchResult.EXACT
    ∧ classify "kargda" ["kargad"] true = MatchResult.MISS
    ∧ classify "xyz" ["kargad"] true = MatchResult.MISS :=
  classify_policy "kargad" ["kargad"] true

theorem classify_false_not_fuzzy (raw : String) (answers : List String) :
    classify raw answers false ≠ .FUZZY := by
  intro h
  have hf := ((classify_spec raw answers false).2.1).mp h
  exact Bool.false_ne_true hf.1

/-- C9: within one presentation, a `FUZZY` verdict never calls
`update_entry` and sets the retry flag; with the retry flag set
(`allow_fuzzy` forced off) the verdict is never `FUZZY`, so the second
submission of the same presentation is scored strictly
`EXACT`-or-`MISS`; only `EXACT` or `MISS` submissions reach the update
call, whose `matched` argument is true exactly for `EXACT`; hence after
one `FUZZY` the next submission can never be `FUZZY` again. -/
theorem accept_answer_fuzzy_policy (reattempt : Bool) (raw : String)
    (answers : List String) :
    ((accept_answer reattempt raw answers).outcome = .FUZZY →
      (accept_answer reattempt raw answers).advanceCall = none
      ∧ (accept_answer reattempt raw answers).reattempt = true)
    ∧ (reattempt = true →
      (accept_answer reattempt raw answers).outcome ≠ .FUZZY)
    ∧ (∀ b, (accept_answer reattempt raw answers).advanceCall = some b →
      ((accept_answer reattempt raw answers).outcome = .EXACT
        ∨ (accept_answer reattempt raw answers).outcome = .MISS)
      ∧ (b = true ↔ (accept_answer reattempt raw answers).outcome = .EXACT))
    ∧ ((accept_answer reattempt raw answers).outcome = .FUZZY →
      ∀ next_raw,
        (accept_answer (accept_answer reattempt raw answers).reattempt
          next_raw answers).outcome ≠ .FUZZY) := by
  by_cases hm : classify raw answers (!reattempt) = .FUZZY
  · have ha : accept_answer reattempt raw answers = ⟨.FUZZY, true, none⟩ := by
      rw [accept_answer, if_pos hm]
    rw [ha]
    refine ⟨fun _ => ⟨rfl, rfl⟩, ?_, ?_, ?_⟩
    · intro hre _
      subst hre
      exact classify_false_not_fuzzy raw answers hm
    · intro b hb
      exact Option.noConfusion hb
    · intro _ next_raw habs
      have habs' : (accept_answer true next_raw answers).outcome = .FUZZY :=
        habs
      by_cases hm2 : classify next_raw answers (!true) = .FUZZY
      · exact classify_false_not_fuzzy next_raw answers hm2
      · have heq : accept_answer true next_raw answers =
            ⟨classify next_raw answers (!true), false,
              some (classify next_raw answers (!true) == .EXACT)⟩ := by
          rw [accept_answer, if_neg hm2]
        rw [heq] at habs'
        exact hm2 habs'
  · have ha : accept_answer reattempt raw answers =
        ⟨classify raw answers (!reattempt), false,
          some (classify raw answers (!reattempt) == .EXACT)⟩ := by
      rw [accept_answer, if_neg hm]
    rw [ha]
    refine ⟨fun habs => absurd habs hm, fun _ habs => hm habs, ?_,
      fun habs => absurd habs hm⟩
    intro b hb
    have hb' : (classify raw answers (!reattempt) == .EXACT) = b := by
      injection hb
    subst hb'
    cases hC : classify raw answers (!reattempt) with
    | MISS => exact ⟨Or.inr rfl, by decide⟩
    | FUZZY => exact absurd hC hm
    | EXACT => exact ⟨Or.inl rfl, by decide⟩

/-- Witness for C9: submitting "karga" against answer "kargad" on a
fresh presentation is classified `FUZZY`, so no `update_entry` call is
made and the retry flag turns on. -/
theorem accept_answer_fuzzy_policy_witness :
    (accept_answer false "karga" ["kargad"]).advanceCall = none
    ∧ (accept_answer false "karga" ["kargad"]).reattempt = true :=
  (accept_answer_fuzzy_policy false "karga" ["kargad"]).1
    (by rw [accept_answer,
          if_pos (show classify "karga" ["kargad"] (!false) = .FUZZY from
            classify_karga_fuzzy)])
